import Mathlib

/-!
Verification of img2nef.py (NEF synthesis from ordinary images plus a donor
"template" NEF) against its natural-language specification.

This file shallowly embeds the byte-buffer assembly, the geometry planner,
the numpy pre-Bayer input paths, the bayer-phase pixel pipeline and the
embedded-JPEG regeneration of img2nef.py:

* Byte buffers are `List Nat` (each entry one byte).  Python `bytearray`
  slice assignment `buf[a : a+len(x)] = x` is `setBytes buf a x`, which for
  `a + len(x) <= len(buf)` is exactly the Python semantics (overwrite in
  place); the assembly and insertion code only uses exact-size slices.
* Python floats are modelled with `ℚ`.  The float64 arithmetic of the
  geometry planner and the float32 arithmetic of the pixel pipeline are
  exact at every concrete input used below; the claims settled here do not
  depend on float rounding error.  Python `round()` (banker's rounding,
  ties to even) is `pyRound`; Python `int()` (truncation toward zero) is
  `pyInt`.
* Images are dimensioned pixel functions (`Img2D`, `Img4`); numpy strided
  slice assignment is translated site-wise, with numpy's clamping of slice
  stops at the array extent.
-/

namespace Img2nef

/-- Byte of a buffer at index `i` (0 when out of range; all uses below are
in range). -/
def byteAt (l : List Nat) (i : Nat) : Nat := (l[i]?).getD 0

/-- Python `buf[pos : pos+len(xs)] = xs` on a bytearray: overwrite `xs.length`
bytes starting at `pos`.  Matches Python exactly whenever the slice lies
inside the buffer. -/
def setBytes (buf : List Nat) (pos : Nat) (xs : List Nat) : List Nat :=
  buf.take pos ++ xs ++ buf.drop (pos + xs.length)

/-- `struct.pack("<I", n)`: the 4 little-endian bytes of a 32-bit value. -/
def le32 (n : Nat) : List Nat :=
  [n % 256, n / 2 ^ 8 % 256, n / 2 ^ 16 % 256, n / 2 ^ 24 % 256]

theorem le32_length (n : Nat) : (le32 n).length = 4 := rfl

theorem setBytes_length {buf : List Nat} {pos : Nat} {xs : List Nat}
    (h : pos + xs.length ≤ buf.length) :
    (setBytes buf pos xs).length = buf.length := by
  simp only [setBytes, List.length_append, List.length_take, List.length_drop]
  omega

theorem byteAt_setBytes_of_lt {buf : List Nat} {pos : Nat} {xs : List Nat}
    {i : Nat} (hp : pos ≤ buf.length) (h : i < pos) :
    byteAt (setBytes buf pos xs) i = byteAt buf i := by
  have ht : (buf.take pos).length = pos := List.length_take_of_le hp
  simp only [setBytes, byteAt, List.append_assoc]
  rw [List.getElem?_append_left (by omega), List.getElem?_take_of_lt h]

theorem byteAt_setBytes_mid {buf : List Nat} {pos : Nat} {xs : List Nat}
    {i : Nat} (hp : pos ≤ buf.length) (h : i < xs.length) :
    byteAt (setBytes buf pos xs) (pos + i) = byteAt xs i := by
  have ht : (buf.take pos).length = pos := List.length_take_of_le hp
  simp only [setBytes, byteAt, List.append_assoc]
  rw [List.getElem?_append_right (by omega)]
  have he : pos + i - (List.take pos buf).length = i := by omega
  rw [he, List.getElem?_append_left h]

theorem byteAt_setBytes_of_ge {buf : List Nat} {pos : Nat} {xs : List Nat}
    {i : Nat} (hp : pos ≤ buf.length) (h : pos + xs.length ≤ i) :
    byteAt (setBytes buf pos xs) i = byteAt buf i := by
  have ht : (buf.take pos).length = pos := List.length_take_of_le hp
  simp only [setBytes, byteAt, List.append_assoc]
  rw [List.getElem?_append_right (by omega)]
  rw [List.getElem?_append_right (by omega)]
  rw [List.getElem?_drop]
  have he : pos + xs.length + (i - (List.take pos buf).length - xs.length) = i := by omega
  rw [he]

theorem byteAt_setBytes_outside {buf : List Nat} {pos : Nat} {xs : List Nat}
    {i : Nat} (hp : pos ≤ buf.length) (h : i < pos ∨ pos + xs.length ≤ i) :
    byteAt (setBytes buf pos xs) i = byteAt buf i := by
  rcases h with h | h
  · exact byteAt_setBytes_of_lt hp h
  · exact byteAt_setBytes_of_ge hp h

theorem byteAt_take {l : List Nat} {n i : Nat} (h : i < n) :
    byteAt (l.take n) i = byteAt l i := by
  simp only [byteAt]
  rw [List.getElem?_take_of_lt h]

/--
`writeOutputNEF` buffer assembly (img2nef.py lines 1070-1090): read the
donor ("template") NEF bytes up to `stripOffset`, place them at the start of
a fresh buffer of size `stripOffset + len(encodedImageData)`, append the
compressed strip, and patch the 32-bit little-endian strip-byte-count field.
The subsequent embedded-JPEG regeneration pass (line 1095) is modelled
separately as `generateAndInsertEmbeddedJpgs`, and the file write is I/O.
`donor` is the template NEF's byte content; `f.read(stripOffset)` is
`donor.take stripOffset`.
-/
def writeOutputNEF (donor : List Nat) (stripOffset fileOffsetToStripByteCount : Nat)
    (encodedImageData : List Nat) : List Nat :=
  let templateNefData := donor.take stripOffset
  let n0 := List.replicate (stripOffset + encodedImageData.length) 0
  let n1 := setBytes n0 0 templateNefData
  let n2 := setBytes n1 stripOffset encodedImageData
  setBytes n2 fileOffsetToStripByteCount (le32 encodedImageData.length)

/-- C1: the output NEF buffer assembled by `writeOutputNEF` has length
`stripOffset + len(compressedStrip)`; the donor bytes `[0, stripOffset)`
form its first `stripOffset` bytes except for the 4 bytes at
`fileOffsetToStripByteCount`, which hold `len(compressedStrip)` as a 32-bit
little-endian integer; and the compressed strip occupies the bytes from
`stripOffset` on. -/
theorem writeOutputNEF_assembly (donor strip : List Nat) (so off : Nat)
    (hso : so ≤ donor.length) (hoff : off + 4 ≤ so) (h32 : strip.length < 2 ^ 32) :
    (writeOutputNEF donor so off strip).length = so + strip.length ∧
    (∀ i, i < so → (i < off ∨ off + 4 ≤ i) →
      byteAt (writeOutputNEF donor so off strip) i = byteAt donor i) ∧
    (∀ j, j < strip.length →
      byteAt (writeOutputNEF donor so off strip) (so + j) = byteAt strip j) ∧
    (∀ k, k < 4 →
      byteAt (writeOutputNEF donor so off strip) (off + k) = byteAt (le32 strip.length) k) := by
  have htmpl : (donor.take so).length = so := List.length_take_of_le hso
  have hn1 : (setBytes (List.replicate (so + strip.length) 0) 0 (donor.take so)).length
      = so + strip.length := by
    rw [setBytes_length (by rw [htmpl, List.length_replicate]; omega)]
    exact List.length_replicate _ _
  have hn2 : (setBytes (setBytes (List.replicate (so + strip.length) 0) 0 (donor.take so))
      so strip).length = so + strip.length := by
    rw [setBytes_length (by rw [hn1])]
    exact hn1
  refine ⟨?_, ?_, ?_, ?_⟩
  · simp only [writeOutputNEF]
    rw [setBytes_length (by rw [le32_length, hn2]; omega)]
    exact hn2
  · intro i hi hout
    simp only [writeOutputNEF]
    rw [byteAt_setBytes_outside (by rw [hn2]; omega) (by rw [le32_length]; exact hout)]
    rw [byteAt_setBytes_of_lt (by rw [hn1]; omega) hi]
    have h0 := @byteAt_setBytes_mid (List.replicate (so + strip.length) 0) 0 (donor.take so) i
      (by rw [List.length_replicate]; omega) (by rw [htmpl]; omega)
    rw [Nat.zero_add] at h0
    rw [h0, byteAt_take hi]
  · intro j hj
    simp only [writeOutputNEF]
    rw [byteAt_setBytes_outside (by rw [hn2]; omega) (Or.inr (by rw [le32_length]; omega))]
    exact byteAt_setBytes_mid (by rw [hn1]; omega) hj
  · intro k hk
    simp only [writeOutputNEF]
    exact byteAt_setBytes_mid (by rw [hn2]; omega) (by rw [le32_length]; omega)

/-- Witness for C1 at a concrete donor, offsets and strip. -/
theorem writeOutputNEF_assembly_witness :
    (6 ≤ ([10, 20, 30, 40, 50, 60, 70, 80] : List Nat).length ∧ 1 + 4 ≤ 6 ∧
      ([9, 7] : List Nat).length < 2 ^ 32) ∧
    ((writeOutputNEF [10, 20, 30, 40, 50, 60, 70, 80] 6 1 [9, 7]).length = 6 + 2 ∧
      (∀ i, i < 6 → (i < 1 ∨ 1 + 4 ≤ i) →
        byteAt (writeOutputNEF [10, 20, 30, 40, 50, 60, 70, 80] 6 1 [9, 7]) i
          = byteAt [10, 20, 30, 40, 50, 60, 70, 80] i) ∧
      (∀ j, j < ([9, 7] : List Nat).length →
        byteAt (writeOutputNEF [10, 20, 30, 40, 50, 60, 70, 80] 6 1 [9, 7]) (6 + j)
          = byteAt [9, 7] j) ∧
      (∀ k, k < 4 →
        byteAt (writeOutputNEF [10, 20, 30, 40, 50, 60, 70, 80] 6 1 [9, 7]) (1 + k)
          = byteAt (le32 ([9, 7] : List Nat).length) k)) :=
  ⟨⟨by decide, by decide, by decide⟩,
    writeOutputNEF_assembly [10, 20, 30, 40, 50, 60, 70, 80] [9, 7] 6 1
      (by decide) (by decide) (by decide)⟩

/-- Python `round()` on a rational: nearest integer, ties to the even
integer (banker's rounding, the Python 3 semantics). -/
def pyRound (q : ℚ) : ℤ :=
  if q - ⌊q⌋ < 1 / 2 then ⌊q⌋
  else if 1 / 2 < q - ⌊q⌋ then ⌊q⌋ + 1
  else if ⌊q⌋ % 2 = 0 then ⌊q⌋ else ⌊q⌋ + 1

/-- Python `int()` on a rational: truncation toward zero. -/
def pyInt (q : ℚ) : ℤ :=
  if 0 ≤ q then ⌊q⌋ else -⌊-q⌋

theorem floor_le_pyRound (q : ℚ) : ⌊q⌋ ≤ pyRound q := by
  unfold pyRound
  split
  · exact le_refl _
  split
  · omega
  split <;> omega

theorem le_pyRound_of_le {n : ℤ} {q : ℚ} (h : (n : ℚ) ≤ q) : n ≤ pyRound q :=
  le_trans (Int.le_floor.mpr h) (floor_le_pyRound q)

/-- `class Alignment(Enum)` of img2nef.py. -/
inductive Alignment where
  | CENTER | TOP | LEFT | BOTTOM | RIGHT
deriving DecidableEq

/-- `class ResizeGeom(Enum)` of img2nef.py. -/
inductive ResizeGeom where
  | NONE | MINIMUM | FULL
deriving DecidableEq

/-- `Dimensions` named tuple: `(columns, rows)`. -/
structure Dimensions where
  columns : Nat
  rows : Nat
deriving DecidableEq

/-- `Coordinate` named tuple: `(x, y)` (Python ints). -/
structure Coordinate where
  x : ℤ
  y : ℤ
deriving DecidableEq

/-- `Rect` named tuple: half-open `(startx, starty, endx, endy)`. -/
structure Rect where
  startx : ℤ
  starty : ℤ
  endx : ℤ
  endy : ℤ
deriving DecidableEq

/-- `SrcGeomAdjustments` named tuple. -/
structure SrcGeomAdjustments where
  resizeDimensions : Option Dimensions
  posInTgt : Coordinate
  cropRect : Option Rect
deriving DecidableEq

/--
`calcAxisCrop` (img2nef.py lines 322-340): half-open crop range for one
axis.  The CENTER arm is Python `int(round(amountToCrop / 2))` and
`int(round(srcAmount - (amountToCrop / 2) - (amountToCrop % 2)))`; `round`
is banker's rounding and `int` of an integral value is the identity.
-/
def calcAxisCrop (srcAmount tgtAmount : Nat) (alignment : Alignment) : ℤ × ℤ :=
  if srcAmount ≤ tgtAmount then
    (0, (srcAmount : ℤ))
  else
    let amountToCrop : Nat := srcAmount - tgtAmount
    match alignment with
    | .LEFT | .TOP => (0, (tgtAmount : ℤ))
    | .CENTER =>
        (pyRound ((amountToCrop : ℚ) / 2),
         pyRound ((srcAmount : ℚ) - (amountToCrop : ℚ) / 2 - ((amountToCrop % 2 : Nat) : ℚ)))
    | .RIGHT | .BOTTOM => ((amountToCrop : ℤ), (tgtAmount : ℤ))

/--
`calcAxisPos` (img2nef.py lines 342-357): position of the (possibly
resized) source inside the target on one axis.  The CENTER arm is Python
`int((tgtAmount/2) - (srcAmount/2))` (float subtraction then truncation).
-/
def calcAxisPos (srcAmount tgtAmount : Nat) (alignment : Alignment) : ℤ :=
  if tgtAmount ≤ srcAmount then
    0
  else
    match alignment with
    | .LEFT | .TOP => 0
    | .CENTER => pyInt ((tgtAmount : ℚ) / 2 - (srcAmount : ℚ) / 2)
    | .RIGHT | .BOTTOM => (tgtAmount : ℤ) - (srcAmount : ℤ)

/--
`calcSrcGeomAdjustments` (img2nef.py lines 307-428): resize / position /
crop planning.  Returns `none` when the source already has the target
dimensions (the Python `return None`).  Multipliers are Python float
divisions, modelled as exact rationals; `Dimensions(int(round(...)), ...)`
is `(pyRound ...).toNat` (the rounded values are nonnegative here since the
inputs are nonnegative).
-/
def calcSrcGeomAdjustments (srcDimensions tgtDimensions : Dimensions)
    (resizeGeom : ResizeGeom) (fMaintainAspectRatio : Bool)
    (horzAlignment vertAlignment : Alignment) : Option SrcGeomAdjustments :=
  if srcDimensions = tgtDimensions then
    none
  else
    let resizeDimensions : Option Dimensions :=
      if tgtDimensions.columns ≤ srcDimensions.columns ∧
          tgtDimensions.rows ≤ srcDimensions.rows then
        none
      else
        match resizeGeom with
        | .MINIMUM =>
          if !fMaintainAspectRatio then
            if srcDimensions.columns < tgtDimensions.columns then
              some ⟨tgtDimensions.columns, srcDimensions.rows⟩
            else
              some ⟨srcDimensions.columns, tgtDimensions.rows⟩
          else
            let columnMultiplier : ℚ := (tgtDimensions.columns : ℚ) / (srcDimensions.columns : ℚ)
            let rowMultiplier : ℚ := (tgtDimensions.rows : ℚ) / (srcDimensions.rows : ℚ)
            if columnMultiplier < rowMultiplier then
              some ⟨tgtDimensions.columns,
                (pyRound ((srcDimensions.rows : ℚ) * columnMultiplier)).toNat⟩
            else
              some ⟨(pyRound ((srcDimensions.columns : ℚ) * rowMultiplier)).toNat,
                tgtDimensions.rows⟩
        | .FULL =>
          let columnMultiplier : ℚ :=
            if srcDimensions.columns < tgtDimensions.columns then
              (tgtDimensions.columns : ℚ) / (srcDimensions.columns : ℚ)
            else 1
          let rowMultiplier : ℚ :=
            if (srcDimensions.rows : ℚ) * columnMultiplier < (tgtDimensions.rows : ℚ) then
              (tgtDimensions.rows : ℚ) / ((srcDimensions.rows : ℚ) * columnMultiplier)
            else 1
          let totalMultiplier := columnMultiplier * rowMultiplier
          some ⟨(pyRound ((srcDimensions.columns : ℚ) * totalMultiplier)).toNat,
            (pyRound ((srcDimensions.rows : ℚ) * totalMultiplier)).toNat⟩
        | .NONE => none
    let newDimensions := resizeDimensions.getD srcDimensions
    let pos : Coordinate :=
      ⟨calcAxisPos newDimensions.columns tgtDimensions.columns horzAlignment,
       calcAxisPos newDimensions.rows tgtDimensions.rows vertAlignment⟩
    let cropRect : Option Rect :=
      if newDimensions.columns ≤ tgtDimensions.columns ∧
          newDimensions.rows ≤ tgtDimensions.rows then
        none
      else
        let cx := calcAxisCrop newDimensions.columns tgtDimensions.columns horzAlignment
        let cy := calcAxisCrop newDimensions.rows tgtDimensions.rows vertAlignment
        some ⟨cx.1, cy.1, cx.2, cy.2⟩
    some ⟨resizeDimensions, pos, cropRect⟩

/-- C4 (code bug): `calcAxisCrop` with a source extent of 4, a target
extent of 3 and CENTER alignment returns the half-open range `[0, 2)`,
whose length is 2, not the target extent 3.  Python's `round()` rounds
ties to even, so `round(4 - 0.5 - 1) = round(2.5) = 2`; the claim (and the
code's intent, per its own odd-amount comment) requires the range
`[0, 3)`: length equal to the target with the single surplus pixel removed
from the high side. -/
theorem calcAxisCrop_center_odd_bug :
    calcAxisCrop 4 3 Alignment.CENTER = (0, 2) ∧ ((2 : ℤ) - 0 ≠ 3) := by
  constructor
  · norm_num [calcAxisCrop, pyRound]
  · decide


/-- C6: with FULL resize geometry and a source smaller than the target on at
least one axis, `calcSrcGeomAdjustments` plans a resize in which both axes
reach or exceed the target (the column deficit multiplier times the residual
row deficit multiplier), leaving any surplus axis to the crop step; in
particular a 1000x1000 source into a 6000x4000 target with CENTER/CENTER
alignment is planned as resize to 6000x6000, crop of rows [1000, 5000) (and
all columns), and placement (0, 0). -/
theorem calcSrcGeomAdjustments_full_covers
    (src tgt : Dimensions) (hA vA : Alignment)
    (hc : 0 < src.columns) (hr : 0 < src.rows)
    (hdef : src.columns < tgt.columns ∨ src.rows < tgt.rows) :
    (∃ rd, (calcSrcGeomAdjustments src tgt .FULL true hA vA).bind
        SrcGeomAdjustments.resizeDimensions = some rd ∧
      tgt.columns ≤ rd.columns ∧ tgt.rows ≤ rd.rows) ∧
    calcSrcGeomAdjustments ⟨1000, 1000⟩ ⟨6000, 4000⟩ .FULL true .CENTER .CENTER
      = some ⟨some ⟨6000, 6000⟩, ⟨0, 0⟩, some ⟨0, 1000, 6000, 5000⟩⟩ := by
  obtain ⟨sc, sr⟩ := src
  obtain ⟨tc, tr⟩ := tgt
  simp only [] at hc hr hdef
  constructor
  · -- general coverage bound
    have hne : (⟨sc, sr⟩ : Dimensions) ≠ ⟨tc, tr⟩ := by
      intro he
      injection he with h1 h2
      omega
    have hcover : ¬((⟨tc, tr⟩ : Dimensions).columns ≤ (⟨sc, sr⟩ : Dimensions).columns ∧
        (⟨tc, tr⟩ : Dimensions).rows ≤ (⟨sc, sr⟩ : Dimensions).rows) := by
      simp only []
      omega
    simp only [calcSrcGeomAdjustments, if_neg hne, if_neg hcover, Option.bind]
    set cm : ℚ := if sc < tc then (tc : ℚ) / (sc : ℚ) else 1 with hcm
    set rm : ℚ := if (sr : ℚ) * cm < (tr : ℚ) then (tr : ℚ) / ((sr : ℚ) * cm) else 1 with hrm
    refine ⟨_, rfl, ?_, ?_⟩
    · -- tc is at most the planned column extent
      have hq : (tc : ℚ) ≤ (sc : ℚ) * (cm * rm) := by
        have hscq : (0 : ℚ) < (sc : ℚ) := by exact_mod_cast hc
        have hsrq : (0 : ℚ) < (sr : ℚ) := by exact_mod_cast hr
        by_cases h1 : sc < tc
        · have htcq : (0 : ℚ) < (tc : ℚ) := by
            have : 0 < tc := by omega
            exact_mod_cast this
          have hcm1 : cm = (tc : ℚ) / (sc : ℚ) := by rw [hcm, if_pos h1]
          have hsccm : (sc : ℚ) * cm = (tc : ℚ) := by
            rw [hcm1]; field_simp
          have hrm1 : (1 : ℚ) ≤ rm := by
            rw [hrm]
            split
            · rename_i hlt
              rw [le_div_iff₀ (by positivity)]
              linarith
            · exact le_refl 1
          calc (tc : ℚ) = (sc : ℚ) * cm * 1 := by rw [hsccm]; ring
            _ ≤ (sc : ℚ) * cm * rm := by
                have : (0:ℚ) ≤ (sc : ℚ) * cm := by rw [hsccm]; positivity
                exact mul_le_mul_of_nonneg_left hrm1 this
            _ = (sc : ℚ) * (cm * rm) := by ring
        · -- the row axis is the deficient one
          have h2 : sr < tr := by omega
          have hcm1 : cm = 1 := by rw [hcm, if_neg h1]
          have hcond : (sr : ℚ) * cm < (tr : ℚ) := by
            rw [hcm1, mul_one]
            exact_mod_cast h2
          have hrm1 : rm = (tr : ℚ) / ((sr : ℚ) * cm) := by rw [hrm, if_pos hcond]
          have htrq : (0 : ℚ) < (tr : ℚ) := by
            have : 0 < tr := by omega
            exact_mod_cast this
          have htcsc : (tc : ℚ) ≤ (sc : ℚ) := by
            have : tc ≤ sc := by omega
            exact_mod_cast this
          have hsrtr : (1 : ℚ) ≤ (tr : ℚ) / (sr : ℚ) := by
            rw [le_div_iff₀ hsrq]
            have : (sr : ℚ) < (tr : ℚ) := by exact_mod_cast h2
            linarith
          have : (sc : ℚ) * (cm * rm) = (sc : ℚ) * ((tr : ℚ) / (sr : ℚ)) := by
            rw [hcm1, hrm1, hcm1]
            field_simp
          rw [this]
          calc (tc : ℚ) ≤ (sc : ℚ) := htcsc
            _ = (sc : ℚ) * 1 := by ring
            _ ≤ (sc : ℚ) * ((tr : ℚ) / (sr : ℚ)) :=
                mul_le_mul_of_nonneg_left hsrtr (le_of_lt hscq)
      have : (tc : ℤ) ≤ pyRound ((sc : ℚ) * (cm * rm)) := by
        apply le_pyRound_of_le
        exact_mod_cast hq
      simp only []
      omega
    · -- tr is at most the planned row extent
      have hq : (tr : ℚ) ≤ (sr : ℚ) * (cm * rm) := by
        have hscq : (0 : ℚ) < (sc : ℚ) := by exact_mod_cast hc
        have hsrq : (0 : ℚ) < (sr : ℚ) := by exact_mod_cast hr
        have hcm0 : (0 : ℚ) < cm := by
          rw [hcm]
          split
          · rename_i h1
            have : (0:ℚ) < (tc : ℚ) := by
              have : 0 < tc := by omega
              exact_mod_cast this
            positivity
          · norm_num
        by_cases hrow : (sr : ℚ) * cm < (tr : ℚ)
        · have hrm1 : rm = (tr : ℚ) / ((sr : ℚ) * cm) := by rw [hrm, if_pos hrow]
          have : (sr : ℚ) * (cm * rm) = (tr : ℚ) := by
            rw [hrm1]
            field_simp
            ring
          rw [this]
        · have hrm1 : rm = 1 := by rw [hrm, if_neg hrow]
          rw [hrm1, mul_one]
          linarith [not_lt.mp hrow]
      have : (tr : ℤ) ≤ pyRound ((sr : ℚ) * (cm * rm)) := by
        apply le_pyRound_of_le
        exact_mod_cast hq
      simp only []
      omega
  · -- concrete 1000x1000 into 6000x4000
    norm_num [calcSrcGeomAdjustments, calcAxisPos, calcAxisCrop, pyRound, pyInt,
      Int.toNat_ofNat]
    refine ⟨rfl, ?_, ?_⟩ <;>
      simp only [show Int.toNat 6000 = 6000 from rfl] <;>
      norm_num [Int.fract]

/-- Witness for C6 at the 1000x1000 source and 6000x4000 target. -/
theorem calcSrcGeomAdjustments_full_covers_witness :
    (0 < (⟨1000, 1000⟩ : Dimensions).columns ∧ 0 < (⟨1000, 1000⟩ : Dimensions).rows ∧
      ((⟨1000, 1000⟩ : Dimensions).columns < (⟨6000, 4000⟩ : Dimensions).columns ∨
        (⟨1000, 1000⟩ : Dimensions).rows < (⟨6000, 4000⟩ : Dimensions).rows)) ∧
    ((∃ rd, (calcSrcGeomAdjustments ⟨1000, 1000⟩ ⟨6000, 4000⟩ .FULL true .CENTER .CENTER).bind
        SrcGeomAdjustments.resizeDimensions = some rd ∧
      (⟨6000, 4000⟩ : Dimensions).columns ≤ rd.columns ∧
      (⟨6000, 4000⟩ : Dimensions).rows ≤ rd.rows) ∧
    calcSrcGeomAdjustments ⟨1000, 1000⟩ ⟨6000, 4000⟩ .FULL true .CENTER .CENTER
      = some ⟨some ⟨6000, 6000⟩, ⟨0, 0⟩, some ⟨0, 1000, 6000, 5000⟩⟩) :=
  ⟨⟨by decide, by decide, by decide⟩,
    calcSrcGeomAdjustments_full_covers ⟨1000, 1000⟩ ⟨6000, 4000⟩ .CENTER .CENTER
      (by decide) (by decide) (by decide)⟩


/-- Maximum of a numpy uint16 array (`data.max()`) over the flattened
sample list (the arrays on this path are nonempty). -/
def npMax (data : List Nat) : Nat := data.foldl max 0

/--
`validateBayeredNpyData` (img2nef.py lines 1561-1577): reports an error
(returns `true`, the Python `True`) exactly when some sample is
`>= 2**14`.  The below-black-level check (`data.min() < blackLevel`) only
prints a warning and does not influence the returned value, so it is not
part of the returned result in this model.
-/
def validateBayeredNpyData (data : List Nat) : Bool :=
  decide (2 ^ 14 ≤ npMax data)

theorem seed_le_foldl_max (l : List Nat) : ∀ a, a ≤ l.foldl max a := by
  induction l with
  | nil => intro a; exact le_refl a
  | cons y t ih => intro a; exact le_trans (le_max_left a y) (ih (max a y))

theorem le_foldl_max (l : List Nat) : ∀ (a x : Nat), x ∈ l → x ≤ l.foldl max a := by
  induction l with
  | nil => intro a x h; cases h
  | cons y t ih =>
    intro a x h
    rcases List.mem_cons.mp h with rfl | h2
    · exact le_trans (le_max_right a x) (seed_le_foldl_max t (max a x))
    · exact ih (max a y) x h2

theorem foldl_max_lt_of_lt (l : List Nat) : ∀ a c, a < c → (∀ x ∈ l, x < c) →
    l.foldl max a < c := by
  induction l with
  | nil => intro a c ha _; exact ha
  | cons y t ih =>
    intro a c ha hall
    apply ih
    · exact max_lt ha (hall y (List.mem_cons_self y t))
    · intro x hx
      exact hall x (List.mem_cons_of_mem y hx)

theorem validateBayeredNpyData_eq_true {data : List Nat} {x : Nat}
    (hx : x ∈ data) (h14 : 2 ^ 14 ≤ x) :
    validateBayeredNpyData data = true := by
  simp only [validateBayeredNpyData, decide_eq_true_eq]
  exact le_trans h14 (le_foldl_max data 0 x hx)

theorem validateBayeredNpyData_eq_false {data : List Nat}
    (hall : ∀ x ∈ data, x < 2 ^ 14) :
    validateBayeredNpyData data = false := by
  simp only [validateBayeredNpyData, decide_eq_false_iff_not, not_le]
  exact foldl_max_lt_of_lt data 0 _ (by norm_num) hall

/-- A 2-D uint16 numpy array: shape `(rows, cols)`; `px r c` is the sample
at row `r`, column `c`. -/
structure Img2D where
  rows : Nat
  cols : Nat
  px : Nat → Nat → Nat

/-- The flattened (row-major) sample list of a 2-D array, as consumed by
`data.max()`. -/
def allSamples (im : Img2D) : List Nat :=
  (List.range im.rows).flatMap fun r => (List.range im.cols).map (im.px r)

/-- A per-channel RGGB numpy array: shape `(rows, cols, 4)`; `px r c ch`
with channels 0..3 = R, G1, G2, B, each channel at half the bayer
resolution. -/
structure Img4 where
  rows : Nat
  cols : Nat
  px : Nat → Nat → Nat → Nat

/-- The flattened sample list of a 4-channel array. -/
def allSamples4 (im : Img4) : List Nat :=
  (List.range im.rows).flatMap fun r =>
    (List.range im.cols).flatMap fun c => [0, 1, 2, 3].map (im.px r c)

/--
The 2-D (pre-bayered) numpy branch of `processSourceNumpy` (img2nef.py
lines 1596-1624), after validation: plan crop/padding with
`ResizeGeom.NONE` and `fMaintainAspectRatio=False`, build the output plane
pre-filled with `blackLevel` (`np.full`), and copy the cropped input into
it at the planned position:
`bayeredImage[posY : posY+endy, posX : posX+endx] = input[starty:endy, startx:endx]`.
The slice assignment is modelled site-wise: a site covered by the
destination slice (numpy clamps slice stops at the array extent) receives
the corresponding input sample unchanged, every other site keeps the
`blackLevel` fill.  On this path the planner produces nonnegative
positions and crop bounds, and the code relies on numpy accepting the
assignment (matching slice shapes).
-/
def bayeredFromNpy2D (input : Img2D) (raw : Dimensions) (blackLevel : Nat)
    (horzAlignment vertAlignment : Alignment) : Img2D :=
  let inputDimensions : Dimensions := ⟨input.cols, input.rows⟩
  let adj := calcSrcGeomAdjustments inputDimensions raw .NONE false
    horzAlignment vertAlignment
  let posInTgt : Coordinate := match adj with
    | none => ⟨0, 0⟩
    | some a => a.posInTgt
  let cropRect : Rect := match adj with
    | none => ⟨0, 0, (input.cols : ℤ), (input.rows : ℤ)⟩
    | some a => a.cropRect.getD ⟨0, 0, (input.cols : ℤ), (input.rows : ℤ)⟩
  { rows := raw.rows, cols := raw.columns,
    px := fun r c =>
      if posInTgt.y ≤ (r : ℤ) ∧ (r : ℤ) < min (posInTgt.y + cropRect.endy) ((raw.rows : ℤ)) ∧
          posInTgt.x ≤ (c : ℤ) ∧ (c : ℤ) < min (posInTgt.x + cropRect.endx) ((raw.columns : ℤ)) then
        input.px (cropRect.starty + ((r : ℤ) - posInTgt.y)).toNat
          (cropRect.startx + ((c : ℤ) - posInTgt.x)).toNat
      else blackLevel }

/--
`processSourceNumpy`, 2-D branch (img2nef.py lines 1591-1624): a
`(rows, cols)` uint16 array is validated and then cropped/padded onto the
raw dimensions.  No pixel-pipeline stage runs on this path and no
black-level bias is added to the samples; `none` is the Python
`(None, None)` abort before encoding.
-/
def processSourceNumpy2D (input : Img2D) (raw : Dimensions) (blackLevel : Nat)
    (horzAlignment vertAlignment : Alignment) : Option Img2D :=
  if validateBayeredNpyData (allSamples input) then none
  else some (bayeredFromNpy2D input raw blackLevel horzAlignment vertAlignment)

/--
The 4-channel numpy branch of `processSourceNumpy` (img2nef.py lines
1635-1672), after validation: the channel dimensions are doubled to full
bayer resolution for planning, the plane is pre-filled with `blackLevel`,
and four strided slice assignments copy channel `ch` (row offset `ch / 2`,
column offset `ch % 2`, stride 2 on both axes) from the half-resolution
channel planes.  Modelled site-wise: a covered site at parity offsets
`(dr, dc)` relative to the placement reads channel `2*dr + dc` at the
half-resolution index.
-/
def bayeredFromNpy4 (input : Img4) (raw : Dimensions) (blackLevel : Nat)
    (horzAlignment vertAlignment : Alignment) : Img2D :=
  let colorChannelDimensionsAsBayer : Dimensions := ⟨input.cols * 2, input.rows * 2⟩
  let adj := calcSrcGeomAdjustments colorChannelDimensionsAsBayer raw .NONE false
    horzAlignment vertAlignment
  let posInTgt : Coordinate := match adj with
    | none => ⟨0, 0⟩
    | some a => a.posInTgt
  let cropRect : Rect := match adj with
    | none => ⟨0, 0, ((input.cols * 2 : Nat) : ℤ), ((input.rows * 2 : Nat) : ℤ)⟩
    | some a => a.cropRect.getD ⟨0, 0, ((input.cols * 2 : Nat) : ℤ), ((input.rows * 2 : Nat) : ℤ)⟩
  { rows := raw.rows, cols := raw.columns,
    px := fun r c =>
      if posInTgt.y ≤ (r : ℤ) ∧ (r : ℤ) < min (posInTgt.y + cropRect.endy) ((raw.rows : ℤ)) ∧
          posInTgt.x ≤ (c : ℤ) ∧ (c : ℤ) < min (posInTgt.x + cropRect.endx) ((raw.columns : ℤ)) then
        input.px (cropRect.starty / 2 + ((r : ℤ) - posInTgt.y) / 2).toNat
          (cropRect.startx / 2 + ((c : ℤ) - posInTgt.x) / 2).toNat
          (2 * (((r : ℤ) - posInTgt.y) % 2) + ((c : ℤ) - posInTgt.x) % 2).toNat
      else blackLevel }

/-- `processSourceNumpy`, 4-channel branch (img2nef.py lines 1635-1672):
validation then channel interleaving onto the raw dimensions. -/
def processSourceNumpy4 (input : Img4) (raw : Dimensions) (blackLevel : Nat)
    (horzAlignment vertAlignment : Alignment) : Option Img2D :=
  if validateBayeredNpyData (allSamples4 input) then none
  else some (bayeredFromNpy4 input raw blackLevel horzAlignment vertAlignment)

theorem bayeredFromNpy2D_px_of_dims_eq (input : Img2D) (raw : Dimensions)
    (bl : Nat) (hA vA : Alignment)
    (hrows : input.rows = raw.rows) (hcols : input.cols = raw.columns)
    (r c : Nat) (hr : r < raw.rows) (hc : c < raw.columns) :
    (bayeredFromNpy2D input raw bl hA vA).px r c = input.px r c := by
  obtain ⟨rc, rr⟩ := raw
  simp only [] at hrows hcols hr hc
  have hdim : (⟨input.cols, input.rows⟩ : Dimensions) = ⟨rc, rr⟩ := by
    rw [hrows, hcols]
  have hadj : calcSrcGeomAdjustments ⟨input.cols, input.rows⟩ ⟨rc, rr⟩ .NONE false hA vA
      = none := by
    simp only [calcSrcGeomAdjustments]
    rw [if_pos hdim]
  simp only [bayeredFromNpy2D, hadj]
  rw [if_pos]
  · have e1 : ((0 : ℤ) + ((r : ℤ) - 0)).toNat = r := by omega
    have e2 : ((0 : ℤ) + ((c : ℤ) - 0)).toNat = c := by omega
    rw [e1, e2]
  · refine ⟨by omega, ?_, by omega, ?_⟩
    · have : (r : ℤ) < (rr : ℤ) := by exact_mod_cast hr
      rw [hrows]
      omega
    · have : (c : ℤ) < (rc : ℤ) := by exact_mod_cast hc
      rw [hcols]
      omega

/-- C8: a pre-Bayer numpy input (2-D plane or 4-channel RGGB) containing a
sample `>= 2^14` fails `validateBayeredNpyData`; `processSourceNumpy`
returns no bayered output, so the run aborts before any encoding and no
output NEF is produced. -/
theorem processSourceNumpy_rejects_large_samples :
    (∀ (input : Img2D) (raw : Dimensions) (bl : Nat) (hA vA : Alignment) (x : Nat),
      x ∈ allSamples input → 2 ^ 14 ≤ x →
      processSourceNumpy2D input raw bl hA vA = none) ∧
    (∀ (input : Img4) (raw : Dimensions) (bl : Nat) (hA vA : Alignment) (x : Nat),
      x ∈ allSamples4 input → 2 ^ 14 ≤ x →
      processSourceNumpy4 input raw bl hA vA = none) := by
  constructor
  · intro input raw bl hA vA x hx h14
    simp [processSourceNumpy2D, validateBayeredNpyData_eq_true hx h14]
  · intro input raw bl hA vA x hx h14
    simp [processSourceNumpy4, validateBayeredNpyData_eq_true hx h14]

/-- Witness for C8: a 1x1 plane holding 16384 and a 1x1x4 array holding
20000 are both rejected. -/
theorem processSourceNumpy_rejects_large_samples_witness :
    ((16384 ∈ allSamples ⟨1, 1, fun _ _ => 16384⟩ ∧ 2 ^ 14 ≤ 16384) ∧
      processSourceNumpy2D ⟨1, 1, fun _ _ => 16384⟩ ⟨2, 2⟩ 0 .CENTER .CENTER = none) ∧
    ((20000 ∈ allSamples4 ⟨1, 1, fun _ _ _ => 20000⟩ ∧ 2 ^ 14 ≤ 20000) ∧
      processSourceNumpy4 ⟨1, 1, fun _ _ _ => 20000⟩ ⟨2, 2⟩ 0 .CENTER .CENTER = none) :=
  ⟨⟨⟨by decide, by decide⟩,
      processSourceNumpy_rejects_large_samples.1 ⟨1, 1, fun _ _ => 16384⟩ ⟨2, 2⟩ 0
        .CENTER .CENTER 16384 (by decide) (by decide)⟩,
    ⟨⟨by decide, by decide⟩,
      processSourceNumpy_rejects_large_samples.2 ⟨1, 1, fun _ _ _ => 20000⟩ ⟨2, 2⟩ 0
        .CENTER .CENTER 20000 (by decide) (by decide)⟩⟩

/-- C10: a 2-D pre-Bayer numpy input whose samples are all below `2^14`
passes validation even when some sample is below a positive donor black
level (that check only warns); the input is accepted, and its
below-black-level samples reach the bayered plane unmodified. -/
theorem processSourceNumpy2D_below_blackLevel_ok (input : Img2D) (raw : Dimensions)
    (bl : Nat) (hA vA : Alignment)
    (hall : ∀ x ∈ allSamples input, x < 2 ^ 14)
    (_hbelow : ∃ x ∈ allSamples input, x < bl) :
    validateBayeredNpyData (allSamples input) = false ∧
    processSourceNumpy2D input raw bl hA vA
      = some (bayeredFromNpy2D input raw bl hA vA) ∧
    (input.rows = raw.rows → input.cols = raw.columns →
      ∀ r c, r < raw.rows → c < raw.columns →
        (bayeredFromNpy2D input raw bl hA vA).px r c = input.px r c) := by
  refine ⟨validateBayeredNpyData_eq_false hall, ?_, ?_⟩
  · simp [processSourceNumpy2D, validateBayeredNpyData_eq_false hall]
  · intro hrows hcols r c hr hc
    exact bayeredFromNpy2D_px_of_dims_eq input raw bl hA vA hrows hcols r c hr hc

/-- Witness for C10: a constant-7 plane with black level 100 is accepted
and passes through. -/
theorem processSourceNumpy2D_below_blackLevel_ok_witness :
    ((∀ x ∈ allSamples ⟨2, 2, fun _ _ => 7⟩, x < 2 ^ 14) ∧
      (∃ x ∈ allSamples ⟨2, 2, fun _ _ => 7⟩, x < 100)) ∧
    (validateBayeredNpyData (allSamples ⟨2, 2, fun _ _ => 7⟩) = false ∧
      processSourceNumpy2D ⟨2, 2, fun _ _ => 7⟩ ⟨2, 2⟩ 100 .CENTER .CENTER
        = some (bayeredFromNpy2D ⟨2, 2, fun _ _ => 7⟩ ⟨2, 2⟩ 100 .CENTER .CENTER) ∧
      ((⟨2, 2, fun _ _ => 7⟩ : Img2D).rows = (⟨2, 2⟩ : Dimensions).rows →
        (⟨2, 2, fun _ _ => 7⟩ : Img2D).cols = (⟨2, 2⟩ : Dimensions).columns →
        ∀ r c, r < (⟨2, 2⟩ : Dimensions).rows → c < (⟨2, 2⟩ : Dimensions).columns →
          (bayeredFromNpy2D ⟨2, 2, fun _ _ => 7⟩ ⟨2, 2⟩ 100 .CENTER .CENTER).px r c
            = (⟨2, 2, fun _ _ => 7⟩ : Img2D).px r c)) :=
  ⟨⟨by decide, by decide⟩,
    processSourceNumpy2D_below_blackLevel_ok ⟨2, 2, fun _ _ => 7⟩ ⟨2, 2⟩ 100
      .CENTER .CENTER (by decide) (by decide)⟩


/-- `src_Convert16BitToNormalizedFloat` (img2nef.py lines 1135-1145) on a
uint16 sample: `convertImageNumpyTypeIfNecessary` divides by
`(1 << 16) - 1 = 65535`. -/
def src_Convert16BitToNormalizedFloat (v : Nat) : ℚ := (v : ℚ) / 65535

/-- `src_ApplyInverseWbMultipliers` (img2nef.py lines 1336-1356),
site-wise: red sites (even row, even column) are multiplied by
`1/redMul`, blue sites (odd row, odd column) by `1/blueMul`, green sites
left unchanged.  The function asserts only `ndim == 2` and therefore also
runs on an already-grayscale 2-D source. -/
def src_ApplyInverseWbMultipliers (red blue : ℚ) (r c : Nat) (v : ℚ) : ℚ :=
  if r % 2 = 0 ∧ c % 2 = 0 then v * (1 / red)
  else if r % 2 = 1 ∧ c % 2 = 1 then v * (1 / blue)
  else v

/-- `src_ScaleNormalizedFloatTo14Bit` (img2nef.py lines 1359-1371):
`image *= (16383 - blackLevel)` then `image.astype(np.uint16)`.  The
float-to-uint16 conversion truncates toward zero (for the nonnegative
pipeline values, the floor) and stores mod 2^16. -/
def src_ScaleNormalizedFloatTo14Bit (blackLevel : Nat) (v : ℚ) : Nat :=
  (⌊v * (16383 - (blackLevel : ℚ))⌋).toNat % 65536

/-- `src_AddBlackLevelBias` (img2nef.py lines 1374-1384):
`image += blackLevel` on uint16 data. -/
def src_AddBlackLevelBias (blackLevel : Nat) (v : Nat) : Nat :=
  (v + blackLevel) % 65536

/--
`bayerOps2D`: the bayer-phase operation list of `processSourceImageData`
(img2nef.py lines 1510-1531) applied to a 2-D (grayscale / pre-bayered)
16-bit image, under the `--src.srgbtolinear=false` configuration:
`src_ConvertToBayer` returns a 2-D input unchanged (line 1243),
`src_Convert16BitToNormalizedFloat` normalizes, `src_ConvertSRGBToLinear`
returns the image unchanged when the option is off (line 1327; the enabled
branch raises to the transcendental power 2.4 and is outside this model),
then `src_ApplyInverseWbMultipliers`, `src_ScaleNormalizedFloatTo14Bit`
and `src_AddBlackLevelBias` run unconditionally.
-/
def bayerOps2D (im : Img2D) (red blue : ℚ) (blackLevel : Nat) : Img2D :=
  ⟨im.rows, im.cols, fun r c =>
    src_AddBlackLevelBias blackLevel
      (src_ScaleNormalizedFloatTo14Bit blackLevel
        (src_ApplyInverseWbMultipliers red blue r c
          (src_Convert16BitToNormalizedFloat (im.px r c))))⟩

/-- C5 counterexample: a constant-65535 2-D source with `wb = (2, 1)` and
`blackLevel = 0` yields 8191 at the red site (0,0) — the inverse red
multiplier was applied — while the claimed no-WB value (as realized at the
green site (0,1)) is 16383. -/
theorem bayerOps2D_wb_applied_cex :
    (bayerOps2D ⟨2, 2, fun _ _ => 65535⟩ 2 1 0).px 0 0 = 8191 ∧
    (bayerOps2D ⟨2, 2, fun _ _ => 65535⟩ 2 1 0).px 0 1 = 16383 ∧
    (8191 : Nat) ≠ 16383 := by
  refine ⟨?_, ?_, by decide⟩ <;>
    (norm_num [bayerOps2D, src_AddBlackLevelBias, src_ScaleNormalizedFloatTo14Bit,
      src_ApplyInverseWbMultipliers, src_Convert16BitToNormalizedFloat]
     decide)

/-- C5 (amended): for a 2-D source at the bayer phase (srgb-to-linear
off), the white-balance stage is applied, not skipped: a site's value is
`⌊(v/65535) · w · (16383 − blackLevel)⌋ + blackLevel` where `w` is
`1/redMul` on red sites, `1/blueMul` on blue sites, and 1 on green sites
(the claim's formula holds only for the green sites). -/
theorem bayerOps2D_site_values (im : Img2D) (red blue : ℚ) (bl : Nat)
    (r c : Nat) (hred : 1 ≤ red) (hblue : 1 ≤ blue) (hbl : bl ≤ 16383)
    (hpx : im.px r c ≤ 65535) :
    (bayerOps2D im red blue bl).px r c =
      (⌊(im.px r c : ℚ) / 65535 *
          (if r % 2 = 0 ∧ c % 2 = 0 then 1 / red
            else if r % 2 = 1 ∧ c % 2 = 1 then 1 / blue else 1) *
          (16383 - (bl : ℚ))⌋).toNat + bl := by
  have key : ∀ w : ℚ, 0 ≤ w → w ≤ 1 →
      (⌊w * (16383 - (bl : ℚ))⌋.toNat % 65536 + bl) % 65536
        = ⌊w * (16383 - (bl : ℚ))⌋.toNat + bl := by
    intro w hw0 hw1
    have hcast : ((16383 - bl : ℕ) : ℚ) = 16383 - (bl : ℚ) := by
      push_cast [hbl]
      ring
    have hfac : (0 : ℚ) ≤ 16383 - (bl : ℚ) := by
      rw [← hcast]
      positivity
    have hprod0 : (0 : ℚ) ≤ w * (16383 - (bl : ℚ)) := mul_nonneg hw0 hfac
    have hprodle : w * (16383 - (bl : ℚ)) ≤ ((16383 - bl : ℕ) : ℚ) := by
      rw [hcast]
      nlinarith
    have hfl0 : (0 : ℤ) ≤ ⌊w * (16383 - (bl : ℚ))⌋ := Int.floor_nonneg.mpr hprod0
    have hflle : ⌊w * (16383 - (bl : ℚ))⌋ ≤ ((16383 - bl : ℕ) : ℤ) := by
      have := Int.floor_le_floor hprodle
      rwa [Int.floor_natCast] at this
    omega
  have hv0 : (0 : ℚ) ≤ (im.px r c : ℚ) / 65535 := by positivity
  have hv1 : (im.px r c : ℚ) / 65535 ≤ 1 := by
    rw [div_le_one (by norm_num)]
    exact_mod_cast hpx
  have hred0 : (0 : ℚ) < red := lt_of_lt_of_le one_pos hred
  have hblue0 : (0 : ℚ) < blue := lt_of_lt_of_le one_pos hblue
  simp only [bayerOps2D, src_AddBlackLevelBias, src_ScaleNormalizedFloatTo14Bit,
    src_ApplyInverseWbMultipliers, src_Convert16BitToNormalizedFloat]
  by_cases h00 : r % 2 = 0 ∧ c % 2 = 0
  · rw [if_pos h00, if_pos h00]
    apply key
    · positivity
    · have hinv : 1 / red ≤ 1 := by
        rw [div_le_one hred0]
        exact hred
      have hinv0 : (0 : ℚ) ≤ 1 / red := by positivity
      calc (im.px r c : ℚ) / 65535 * (1 / red) ≤ 1 * (1 / red) :=
            mul_le_mul_of_nonneg_right hv1 hinv0
        _ = 1 / red := one_mul _
        _ ≤ 1 := hinv
  · rw [if_neg h00, if_neg h00]
    by_cases h11 : r % 2 = 1 ∧ c % 2 = 1
    · rw [if_pos h11, if_pos h11]
      apply key
      · positivity
      · have hinv : 1 / blue ≤ 1 := by
          rw [div_le_one hblue0]
          exact hblue
        have hinv0 : (0 : ℚ) ≤ 1 / blue := by positivity
        calc (im.px r c : ℚ) / 65535 * (1 / blue) ≤ 1 * (1 / blue) :=
              mul_le_mul_of_nonneg_right hv1 hinv0
          _ = 1 / blue := one_mul _
          _ ≤ 1 := hinv
    · rw [if_neg h11, if_neg h11]
      have := key ((im.px r c : ℚ) / 65535) hv0 hv1
      rw [mul_one]
      exact this

/-- Witness for the amended C5 at a constant-1000 source with unit WB
multipliers. -/
theorem bayerOps2D_site_values_witness :
    ((1 : ℚ) ≤ 1 ∧ (1 : ℚ) ≤ 1 ∧ 0 ≤ 16383 ∧
      (⟨2, 2, fun _ _ => 1000⟩ : Img2D).px 0 0 ≤ 65535) ∧
    (bayerOps2D ⟨2, 2, fun _ _ => 1000⟩ 1 1 0).px 0 0 =
      (⌊((⟨2, 2, fun _ _ => 1000⟩ : Img2D).px 0 0 : ℚ) / 65535 *
          (if 0 % 2 = 0 ∧ 0 % 2 = 0 then 1 / 1
            else if 0 % 2 = 1 ∧ 0 % 2 = 1 then 1 / 1 else 1) *
          (16383 - ((0 : ℕ) : ℚ))⌋).toNat + 0 :=
  ⟨⟨le_refl 1, le_refl 1, by decide, by decide⟩,
    bayerOps2D_site_values ⟨2, 2, fun _ _ => 1000⟩ 1 1 0 0 0
      (le_refl 1) (le_refl 1) (by decide) (by decide)⟩


/--
`generateEmbeddedJpg` (img2nef.py lines 841-878): PIL encodes the resized
preview at quality 100, re-encoding with the quality lowered by 10 until
the output fits `maxSizeBytes`; at quality 20 or below the attempt is
abandoned (`None`).  The external resize + JPEG encoder is the parameter
`encode` (quality to bytes); callers start at quality 100.
-/
def generateEmbeddedJpg (encode : Nat → List Nat) (maxSizeBytes quality : Nat) :
    Option (List Nat) :=
  if (encode quality).length ≤ maxSizeBytes then some (encode quality)
  else if _h : quality ≤ 20 then none
  else generateEmbeddedJpg encode maxSizeBytes (quality - 10)
termination_by quality
decreasing_by omega

theorem generateEmbeddedJpg_le (encode : Nat → List Nat) (maxSizeBytes : Nat) :
    ∀ quality jpg, generateEmbeddedJpg encode maxSizeBytes quality = some jpg →
      jpg.length ≤ maxSizeBytes := by
  intro quality
  induction quality using Nat.strong_induction_on with
  | _ q ih =>
    intro jpg h
    rw [generateEmbeddedJpg] at h
    split at h
    · rename_i hle
      cases h
      exact hle
    · split at h
      · exact absurd h (by simp)
      · rename_i h20
        exact ih (q - 10) (by omega) jpg h

/--
`generatePlaceholderEmbeddedJpg` (img2nef.py lines 881-936): a black
placeholder image with one text line is encoded once (externally, here the
parameter `placeholderBytes`) and returned only when it fits
`maxSizeBytes`.
-/
def generatePlaceholderEmbeddedJpg (placeholderBytes : List Nat) (maxSizeBytes : Nat) :
    Option (List Nat) :=
  if maxSizeBytes < placeholderBytes.length then none else some placeholderBytes

/-- The per-record generation of `generateAndInsertEmbeddedJpgs`
(img2nef.py lines 1030-1036): try `generateEmbeddedJpg` from quality 100,
fall back to the placeholder. -/
def embeddedJpgForRecord (encode : Nat → List Nat) (placeholderBytes : List Nat)
    (origJpgSize : Nat) : Option (List Nat) :=
  match generateEmbeddedJpg encode origJpgSize 100 with
  | some jpg => some jpg
  | none => generatePlaceholderEmbeddedJpg placeholderBytes origJpgSize

/--
The in-place overwrite of one preview record (img2nef.py lines 1042-1051):
copy the new JPEG over the donor bytes at the original start offset,
zero-fill any slack up to the original end offset (the Python walrus
`countUnusedBytes > 0` guard), and rewrite the 4-byte little-endian length
field.
-/
def insertEmbeddedJpg (newNefData : List Nat)
    (origJpgStart origJpgSize offsetToLengthField : Nat)
    (embeddedJpg : List Nat) : List Nat :=
  let n1 := setBytes newNefData origJpgStart embeddedJpg
  let n2 := if 0 < origJpgSize - embeddedJpg.length then
      setBytes n1 (origJpgStart + embeddedJpg.length)
        (List.replicate (origJpgSize - embeddedJpg.length) 0)
    else n1
  setBytes n2 offsetToLengthField (le32 embeddedJpg.length)

theorem byteAt_replicate_zero (n j : Nat) : byteAt (List.replicate n 0) j = 0 := by
  simp only [byteAt, List.getElem?_replicate]
  split <;> rfl

theorem insertEmbeddedJpg_length {buf : List Nat} {start origLen off : Nat}
    {jpg : List Nat} (hin : start + origLen ≤ buf.length)
    (hoff : off + 4 ≤ buf.length) (hlen : jpg.length ≤ origLen) :
    (insertEmbeddedJpg buf start origLen off jpg).length = buf.length := by
  have h1 : (setBytes buf start jpg).length = buf.length := setBytes_length (by omega)
  simp only [insertEmbeddedJpg]
  by_cases hslack : 0 < origLen - jpg.length
  · rw [if_pos hslack]
    have h2 : (setBytes (setBytes buf start jpg) (start + jpg.length)
        (List.replicate (origLen - jpg.length) 0)).length = buf.length := by
      rw [setBytes_length (by rw [List.length_replicate, h1]; omega)]
      exact h1
    rw [setBytes_length (by rw [le32_length, h2]; omega)]
    exact h2
  · rw [if_neg hslack]
    rw [setBytes_length (by rw [le32_length, h1]; omega)]
    exact h1

theorem byteAt_insertEmbeddedJpg_outside {buf : List Nat} {start origLen off i : Nat}
    {jpg : List Nat} (hin : start + origLen ≤ buf.length)
    (hoff : off + 4 ≤ buf.length) (hlen : jpg.length ≤ origLen)
    (hout1 : i < start ∨ start + origLen ≤ i)
    (hout2 : i < off ∨ off + 4 ≤ i) :
    byteAt (insertEmbeddedJpg buf start origLen off jpg) i = byteAt buf i := by
  have h1 : (setBytes buf start jpg).length = buf.length := setBytes_length (by omega)
  simp only [insertEmbeddedJpg]
  by_cases hslack : 0 < origLen - jpg.length
  · rw [if_pos hslack]
    have h2 : (setBytes (setBytes buf start jpg) (start + jpg.length)
        (List.replicate (origLen - jpg.length) 0)).length = buf.length := by
      rw [setBytes_length (by rw [List.length_replicate, h1]; omega)]
      exact h1
    rw [byteAt_setBytes_outside (by rw [h2]; omega) (by rw [le32_length]; exact hout2)]
    rw [byteAt_setBytes_outside (by rw [h1]; omega) (by rw [List.length_replicate]; omega)]
    exact byteAt_setBytes_outside (by omega) (by omega)
  · rw [if_neg hslack]
    rw [byteAt_setBytes_outside (by rw [h1]; omega) (by rw [le32_length]; exact hout2)]
    exact byteAt_setBytes_outside (by omega) (by omega)

/-- C7: a replacement preview JPEG produced for a record (directly or via
the placeholder fallback) is never larger than the record's original
length field; the insertion then copies its bytes at the original start
offset, zero-fills the slack up to the original end offset, rewrites the
record's 4-byte length field in little-endian form, and keeps the buffer
length unchanged. -/
theorem generateEmbeddedJpg_insert (encode : Nat → List Nat) (placeholderBytes : List Nat)
    (buf : List Nat) (start origLen off : Nat) (jpg : List Nat)
    (hgen : embeddedJpgForRecord encode placeholderBytes origLen = some jpg)
    (hin : start + origLen ≤ buf.length) (hoff : off + 4 ≤ buf.length)
    (hdisj : off + 4 ≤ start ∨ start + origLen ≤ off) :
    jpg.length ≤ origLen ∧
    (∀ i, i < jpg.length →
      byteAt (insertEmbeddedJpg buf start origLen off jpg) (start + i) = byteAt jpg i) ∧
    (∀ i, jpg.length ≤ i → i < origLen →
      byteAt (insertEmbeddedJpg buf start origLen off jpg) (start + i) = 0) ∧
    (∀ k, k < 4 →
      byteAt (insertEmbeddedJpg buf start origLen off jpg) (off + k)
        = byteAt (le32 jpg.length) k) ∧
    (insertEmbeddedJpg buf start origLen off jpg).length = buf.length := by
  have hlen : jpg.length ≤ origLen := by
    revert hgen
    simp only [embeddedJpgForRecord]
    rcases hg : generateEmbeddedJpg encode origLen 100 with _ | j
    · simp only [generatePlaceholderEmbeddedJpg]
      split
      · intro h
        exact absurd h (by simp)
      · rename_i hfit
        intro h
        cases h
        omega
    · intro h
      cases h
      exact generateEmbeddedJpg_le encode origLen 100 jpg hg
  have h1 : (setBytes buf start jpg).length = buf.length := setBytes_length (by omega)
  refine ⟨hlen, ?_, ?_, ?_, insertEmbeddedJpg_length hin hoff hlen⟩
  · intro i hi
    simp only [insertEmbeddedJpg]
    by_cases hslack : 0 < origLen - jpg.length
    · rw [if_pos hslack]
      have h2 : (setBytes (setBytes buf start jpg) (start + jpg.length)
          (List.replicate (origLen - jpg.length) 0)).length = buf.length := by
        rw [setBytes_length (by rw [List.length_replicate, h1]; omega)]
        exact h1
      rw [byteAt_setBytes_outside (by rw [h2]; omega) (by rw [le32_length]; omega)]
      rw [byteAt_setBytes_outside (by rw [h1]; omega)
        (Or.inl (by omega))]
      exact byteAt_setBytes_mid (by omega) hi
    · rw [if_neg hslack]
      rw [byteAt_setBytes_outside (by rw [h1]; omega) (by rw [le32_length]; omega)]
      exact byteAt_setBytes_mid (by omega) hi
  · intro i hge hlt
    simp only [insertEmbeddedJpg]
    have hslack : 0 < origLen - jpg.length := by omega
    rw [if_pos hslack]
    have h2 : (setBytes (setBytes buf start jpg) (start + jpg.length)
        (List.replicate (origLen - jpg.length) 0)).length = buf.length := by
      rw [setBytes_length (by rw [List.length_replicate, h1]; omega)]
      exact h1
    rw [byteAt_setBytes_outside (by rw [h2]; omega) (by rw [le32_length]; omega)]
    have he : start + i = (start + jpg.length) + (i - jpg.length) := by omega
    rw [he]
    rw [byteAt_setBytes_mid (by rw [h1]; omega) (by rw [List.length_replicate]; omega)]
    exact byteAt_replicate_zero _ _
  · intro k hk
    simp only [insertEmbeddedJpg]
    by_cases hslack : 0 < origLen - jpg.length
    · rw [if_pos hslack]
      have h2 : (setBytes (setBytes buf start jpg) (start + jpg.length)
          (List.replicate (origLen - jpg.length) 0)).length = buf.length := by
        rw [setBytes_length (by rw [List.length_replicate, h1]; omega)]
        exact h1
      exact byteAt_setBytes_mid (by rw [h2]; omega) (by rw [le32_length]; omega)
    · rw [if_neg hslack]
      exact byteAt_setBytes_mid (by rw [h1]; omega) (by rw [le32_length]; omega)

/-- Witness for C7 at a concrete record and buffer. -/
theorem generateEmbeddedJpg_insert_witness :
    (embeddedJpgForRecord (fun _ => [5, 6]) [0] 3 = some [5, 6] ∧
      6 + 3 ≤ ([1, 2, 3, 4, 5, 6, 7, 8, 9, 10, 11, 12] : List Nat).length ∧
      0 + 4 ≤ ([1, 2, 3, 4, 5, 6, 7, 8, 9, 10, 11, 12] : List Nat).length ∧
      (0 + 4 ≤ 6 ∨ 6 + 3 ≤ 0)) ∧
    (([5, 6] : List Nat).length ≤ 3 ∧
      (∀ i, i < ([5, 6] : List Nat).length →
        byteAt (insertEmbeddedJpg [1, 2, 3, 4, 5, 6, 7, 8, 9, 10, 11, 12] 6 3 0 [5, 6])
          (6 + i) = byteAt [5, 6] i) ∧
      (∀ i, ([5, 6] : List Nat).length ≤ i → i < 3 →
        byteAt (insertEmbeddedJpg [1, 2, 3, 4, 5, 6, 7, 8, 9, 10, 11, 12] 6 3 0 [5, 6])
          (6 + i) = 0) ∧
      (∀ k, k < 4 →
        byteAt (insertEmbeddedJpg [1, 2, 3, 4, 5, 6, 7, 8, 9, 10, 11, 12] 6 3 0 [5, 6])
          (0 + k) = byteAt (le32 ([5, 6] : List Nat).length) k) ∧
      (insertEmbeddedJpg [1, 2, 3, 4, 5, 6, 7, 8, 9, 10, 11, 12] 6 3 0 [5, 6]).length
        = ([1, 2, 3, 4, 5, 6, 7, 8, 9, 10, 11, 12] : List Nat).length) :=
  ⟨⟨by rw [embeddedJpgForRecord, generateEmbeddedJpg]; simp, by decide, by decide,
      Or.inl (by decide)⟩,
    generateEmbeddedJpg_insert (fun _ => [5, 6]) [0]
      [1, 2, 3, 4, 5, 6, 7, 8, 9, 10, 11, 12] 6 3 0 [5, 6]
      (by rw [embeddedJpgForRecord, generateEmbeddedJpg]; simp)
      (by decide) (by decide) (Or.inl (by decide))⟩


/-- Preview-record geometry of the `EmbeddedJpgExifInfo` named tuple
(img2nef.py line 66); the EXIF name string is used only for log text and
is omitted. -/
structure EmbeddedJpgExifInfo where
  start : Nat
  length : Nat
  offsetToLengthField : Nat

/-- Outcome of the per-record generation steps of
`generateAndInsertEmbeddedJpgs` before the in-place overwrite: `abort`
models a failed dimension decode of the donor's embedded JPEG
(`return True`, which stops the whole pass), `skip` a record whose
replacement and placeholder both exceeded the budget (`embeddedJpg is
None`), and `write jpg` a produced replacement. -/
inductive GenResult where
  | abort : GenResult
  | skip : GenResult
  | write : List Nat → GenResult

/--
`generateAndInsertEmbeddedJpgs` (img2nef.py lines 939-1053): walk the
preview records of the donor EXIF; for each, produce a replacement
(`gen`, wrapping the external decode, `generateEmbeddedJpg` and the
placeholder fallback) and overwrite it in place (lines 1042-1051 =
`insertEmbeddedJpg`).
-/
def generateAndInsertEmbeddedJpgs (gen : EmbeddedJpgExifInfo → GenResult) :
    List EmbeddedJpgExifInfo → List Nat → List Nat
  | [], newNefData => newNefData
  | r :: rest, newNefData =>
    match gen r with
    | .abort => newNefData
    | .skip => generateAndInsertEmbeddedJpgs gen rest newNefData
    | .write jpg => generateAndInsertEmbeddedJpgs gen rest
        (insertEmbeddedJpg newNefData r.start r.length r.offsetToLengthField jpg)

/-- C9: preview insertion only mutates, for each record it rewrites, the
bytes in `[start, start + originalLength)` and the 4 bytes at the record's
length-field offset; every byte outside those regions — in particular the
whole appended compressed-strip region — is unchanged, and the buffer
length is preserved. -/
theorem generateAndInsertEmbeddedJpgs_frame (gen : EmbeddedJpgExifInfo → GenResult)
    (records : List EmbeddedJpgExifInfo) (buf : List Nat) (i : Nat)
    (hb : ∀ r ∈ records, r.start + r.length ≤ buf.length ∧
      r.offsetToLengthField + 4 ≤ buf.length)
    (hg : ∀ r ∈ records, ∀ jpg, gen r = .write jpg → jpg.length ≤ r.length)
    (hi : ∀ r ∈ records, ∀ jpg, gen r = .write jpg →
      (i < r.start ∨ r.start + r.length ≤ i) ∧
      (i < r.offsetToLengthField ∨ r.offsetToLengthField + 4 ≤ i)) :
    (generateAndInsertEmbeddedJpgs gen records buf).length = buf.length ∧
    byteAt (generateAndInsertEmbeddedJpgs gen records buf) i = byteAt buf i := by
  induction records generalizing buf with
  | nil => exact ⟨rfl, rfl⟩
  | cons r rest ih =>
    simp only [generateAndInsertEmbeddedJpgs]
    rcases hgr : gen r with _ | _ | jpg
    · exact ⟨rfl, rfl⟩
    · exact ih buf (fun x hx => hb x (List.mem_cons_of_mem r hx))
        (fun x hx => hg x (List.mem_cons_of_mem r hx))
        (fun x hx => hi x (List.mem_cons_of_mem r hx))
    · have hbr := hb r (List.mem_cons_self r rest)
      have hlen := hg r (List.mem_cons_self r rest) jpg hgr
      have hout := hi r (List.mem_cons_self r rest) jpg hgr
      have hins_len : (insertEmbeddedJpg buf r.start r.length r.offsetToLengthField jpg).length
          = buf.length :=
        insertEmbeddedJpg_length hbr.1 hbr.2 hlen
      have hins_byte : byteAt (insertEmbeddedJpg buf r.start r.length r.offsetToLengthField jpg) i
          = byteAt buf i :=
        byteAt_insertEmbeddedJpg_outside hbr.1 hbr.2 hlen hout.1 hout.2
      obtain ⟨l2, b2⟩ := ih (insertEmbeddedJpg buf r.start r.length r.offsetToLengthField jpg)
        (fun x hx => by rw [hins_len]; exact hb x (List.mem_cons_of_mem r hx))
        (fun x hx => hg x (List.mem_cons_of_mem r hx))
        (fun x hx => hi x (List.mem_cons_of_mem r hx))
      exact ⟨by rw [l2, hins_len], by rw [b2, hins_byte]⟩

/-- Witness for C9: one record rewritten inside a 12-byte buffer; the byte
at index 0 (outside both regions) is untouched and the length is kept. -/
theorem generateAndInsertEmbeddedJpgs_frame_witness :
    ((∀ r ∈ [(⟨6, 3, 2⟩ : EmbeddedJpgExifInfo)],
        r.start + r.length ≤ ([1, 2, 3, 4, 5, 6, 7, 8, 9, 10, 11, 12] : List Nat).length ∧
        r.offsetToLengthField + 4 ≤ ([1, 2, 3, 4, 5, 6, 7, 8, 9, 10, 11, 12] : List Nat).length) ∧
      (∀ r ∈ [(⟨6, 3, 2⟩ : EmbeddedJpgExifInfo)], ∀ jpg,
        (fun (_ : EmbeddedJpgExifInfo) => GenResult.write [5, 6]) r = .write jpg →
        jpg.length ≤ r.length) ∧
      (∀ r ∈ [(⟨6, 3, 2⟩ : EmbeddedJpgExifInfo)], ∀ jpg,
        (fun (_ : EmbeddedJpgExifInfo) => GenResult.write [5, 6]) r = .write jpg →
        (0 < r.start ∨ r.start + r.length ≤ 0) ∧
        (0 < r.offsetToLengthField ∨ r.offsetToLengthField + 4 ≤ 0))) ∧
    ((generateAndInsertEmbeddedJpgs (fun _ => GenResult.write [5, 6])
        [⟨6, 3, 2⟩] [1, 2, 3, 4, 5, 6, 7, 8, 9, 10, 11, 12]).length
      = ([1, 2, 3, 4, 5, 6, 7, 8, 9, 10, 11, 12] : List Nat).length ∧
    byteAt (generateAndInsertEmbeddedJpgs (fun _ => GenResult.write [5, 6])
        [⟨6, 3, 2⟩] [1, 2, 3, 4, 5, 6, 7, 8, 9, 10, 11, 12]) 0
      = byteAt [1, 2, 3, 4, 5, 6, 7, 8, 9, 10, 11, 12] 0) :=
  ⟨⟨fun r hr => by
      rcases List.mem_singleton.mp hr with rfl
      exact ⟨by decide, by decide⟩,
    fun r hr jpg h => by
      rcases List.mem_singleton.mp hr with rfl
      cases h
      decide,
    fun r hr jpg h => by
      rcases List.mem_singleton.mp hr with rfl
      exact ⟨Or.inl (by decide), Or.inl (by decide)⟩⟩,
    generateAndInsertEmbeddedJpgs_frame (fun _ => GenResult.write [5, 6])
      [⟨6, 3, 2⟩] [1, 2, 3, 4, 5, 6, 7, 8, 9, 10, 11, 12] 0
      (fun r hr => by
        rcases List.mem_singleton.mp hr with rfl
        exact ⟨by decide, by decide⟩)
      (fun r hr jpg h => by
        rcases List.mem_singleton.mp hr with rfl
        cases h
        decide)
      (fun r hr jpg h => by
        rcases List.mem_singleton.mp hr with rfl
        exact ⟨Or.inl (by decide), Or.inl (by decide)⟩)⟩

end Img2nef
